import Mathlib

/-!
Shallow embedding of the local-project import pipeline of the repository:
`app/lib/importDirectory.ts` (directory import into the WebContainer sandbox,
ignore-pattern filtering, npm install / start bootstrapping) and the related
file handling in `app/components/workbench/Workbench.client.tsx` and the
`handleImportProject` file filter of `BaseChat.tsx`.

Strings model JS strings, `List Nat` models raw bytes (`Uint8Array`),
`Option` models JS `null`/exceptions caught to `null`, and assoc lists model
JS objects/records.
-/

namespace BoltImport

/-- JS `String.prototype.startsWith`. -/
def jsStartsWith (s pre : String) : Bool :=
  pre.toList.isPrefixOf s.toList

/-- JS `String.prototype.endsWith`. -/
def jsEndsWith (s suf : String) : Bool :=
  suf.toList.isSuffixOf s.toList

/-- JS `String.prototype.trim` (strip leading and trailing whitespace). -/
def jsTrim (s : String) : String :=
  String.mk (((s.toList.dropWhile Char.isWhitespace).reverse.dropWhile
    Char.isWhitespace).reverse)

/-- Split a character list on a separator character; JS
`String.prototype.split` semantics (keeps empty pieces). -/
def splitCharList (sep : Char) (l : List Char) : List (List Char) :=
  match l with
  | [] => [[]]
  | c :: rest =>
    let r := splitCharList sep rest
    if c == sep then [] :: r
    else
      match r with
      | [] => [[c]]
      | h :: t => (c :: h) :: t

/-- JS `s.split(sep)` for a one-character separator. -/
def jsSplit (s : String) (sep : Char) : List String :=
  (splitCharList sep s.toList).map String.mk

/-- A source-side file tree, modelling a `FileSystemDirectoryHandle`:
`entries()` enumerates named child handles, each a file (with raw byte
content) or a directory. -/
inductive FsTree where
  | file (content : List Nat) : FsTree
  | dir (children : List (String × FsTree)) : FsTree

/-- `handle.kind === 'file'`. -/
def isFileHandle : FsTree → Bool
  | .file _ => true
  | .dir _ => false

/-- One effect issued against the WebContainer sandbox: a filesystem
mutation (`rm('/',…)`, `mkdir`, `writeFile`) or a process `spawn`. -/
inductive Op where
  | rmRoot : Op
  | mkdir (path : String) : Op
  | writeFile (path : String) (bytes : List Nat) : Op
  | spawn (cmd : String) (args : List String) : Op
  deriving DecidableEq

def isSpawnOp : Op → Bool
  | .spawn _ _ => true
  | _ => false

/-- `DEFAULT_IGNORE_PATTERNS` from `importDirectory.ts`. -/
def DEFAULT_IGNORE_PATTERNS : List String :=
  ["node_modules", ".git", ".github", "dist", "build", ".cache", ".DS_Store",
   "coverage", ".env", ".env.local", ".env.development.local", ".env.test.local",
   ".env.production.local", "npm-debug.log*", "yarn-debug.log*", "yarn-error.log*"]

/-- `shouldIgnore(path, ignorePatterns)` from `importDirectory.ts`: strips one
leading slash, then tests each pattern as exact match, directory-prefix match
(pattern ending in `/`), extension wildcard (`*.ext`), or a trailing-star
wildcard. -/
def shouldIgnore (path : String) (ignorePatterns : List String) : Bool :=
  let normalizedPath := if jsStartsWith path "/" then path.drop 1 else path
  ignorePatterns.any (fun pattern =>
    (normalizedPath == pattern) ||
    (jsEndsWith pattern "/" && jsStartsWith normalizedPath pattern) ||
    (jsStartsWith pattern "*." && jsEndsWith normalizedPath (pattern.drop 1)) ||
    (jsEndsWith pattern "*" && jsStartsWith normalizedPath (pattern.dropRight 1)))

/-- `parseGitignore(content)` from `importDirectory.ts`: split on newlines,
trim every line, keep non-empty non-comment lines, strip one leading slash. -/
def parseGitignore (content : String) : List String :=
  (((jsSplit content '\n').map (fun line => jsTrim line)).filter
      (fun line => !(line == "") && !(jsStartsWith line "#"))).map
    (fun pattern => if jsStartsWith pattern "/" then pattern.drop 1 else pattern)

/-- `findFile(directoryHandle, filename)`: iterate over the direct children of
the handle and return the first child whose name matches and whose kind is
`file`; `null` otherwise. -/
def findFile (entries : List (String × FsTree)) (filename : String) : Option FsTree :=
  match entries with
  | [] => none
  | (name, handle) :: rest =>
    if name == filename && isFileHandle handle then some handle
    else findFile rest filename

/-- `findPackageJson(directoryHandle)` = `findFile(directoryHandle, 'package.json')`. -/
def findPackageJson (entries : List (String × FsTree)) : Option FsTree :=
  findFile entries "package.json"

/-- `importDirectoryContents(directoryHandle, webcontainer, currentPath,
ignorePatterns)`: the sequence of sandbox operations it issues while walking
the handle's entries in order, skipping ignored paths, writing each file's
raw bytes and recursing into subdirectories after a `mkdir`. -/
def importDirectoryContents (entries : List (String × FsTree)) (currentPath : String)
    (ignorePatterns : List String) : List Op :=
  match entries with
  | [] => []
  | (name, handle) :: rest =>
    (if shouldIgnore (currentPath ++ name) ignorePatterns then []
     else
       match handle with
       | .file contents => [Op.writeFile (currentPath ++ name) contents]
       | .dir children =>
         Op.mkdir (currentPath ++ name) ::
           importDirectoryContents children (currentPath ++ name ++ "/") ignorePatterns)
    ++ importDirectoryContents rest currentPath ignorePatterns

/-- A parsed `package.json`: only the `scripts` object matters to the import
pipeline. A JS object is an assoc list of string keys to string values. -/
structure PackageJson where
  scripts : Option (List (String × String))
  deriving DecidableEq

/-- JS property access `scripts.<k>` on an object. -/
def jsGet (scripts : List (String × String)) (k : String) : Option String :=
  (scripts.find? (fun kv => kv.1 == k)).map (fun kv => kv.2)

/-- JS truthiness of `scripts && scripts.<k>`: the property exists and its
string value is non-empty. -/
def jsTruthy : Option String → Bool
  | some s => !(s == "")
  | none => false

/-- The resolved start command `{command, args}`. -/
structure StartCmd where
  command : String
  args : List String
  deriving DecidableEq

/-- `determineStartCommand(webcontainer)` from `importDirectory.ts`. Its input
is the outcome of `readFile('/package.json','utf-8')` followed by
`JSON.parse`: `none` when either throws (the `catch` returns `null`), `some`
the parsed manifest otherwise. Priority: `scripts.start`, then `scripts.dev`,
then `scripts.serve`, else the fallback `npm start`. -/
def determineStartCommand (parsed : Option PackageJson) : Option StartCmd :=
  match parsed with
  | none => none
  | some packageJson =>
    match packageJson.scripts with
    | some scripts =>
      if jsTruthy (jsGet scripts "start") then some ⟨"npm", ["run", "start"]⟩
      else if jsTruthy (jsGet scripts "dev") then some ⟨"npm", ["run", "dev"]⟩
      else if jsTruthy (jsGet scripts "serve") then some ⟨"npm", ["run", "serve"]⟩
      else some ⟨"npm", ["start"]⟩
    | none => some ⟨"npm", ["start"]⟩

/-- The run-script choice of `handleImportedFiles` in `Workbench.client.tsx`
(lines 379–388): starts from `'start'`, then checks `scripts.dev`,
`scripts.develop`, `scripts.serve` in that order; `scripts.start` is never
consulted. -/
def workbenchRunScript (parsed : Option PackageJson) : String :=
  match parsed with
  | some packageJsonContent =>
    match packageJsonContent.scripts with
    | some scripts =>
      if jsTruthy (jsGet scripts "dev") then "dev"
      else if jsTruthy (jsGet scripts "develop") then "develop"
      else if jsTruthy (jsGet scripts "serve") then "serve"
      else "start"
    | none => "start"
  | none => "start"

/-- Modelled from the spec (for comparison with the code, claim C1): "pick
the run script by priority `start > dev > serve > develop`; if none present
..., fall back to `start`" — the highest-priority script name present in the
scripts object. -/
def specPriorityScript (scripts : List (String × String)) : String :=
  match (["start", "dev", "serve", "develop"].find? (fun n => (jsGet scripts n).isSome)) with
  | some s => s
  | none => "start"

/-- The priority order the code actually follows in `determineStartCommand`
(truthy `start`, then `dev`, then `serve`); used to state the corrected C1. -/
def codePriorityScript (scripts : List (String × String)) : Option String :=
  ["start", "dev", "serve"].find? (fun n => jsTruthy (jsGet scripts n))

/-- The inputs of one run of `importLocalDirectory`, i.e. everything the
host environment supplies: whether `window.showDirectoryPicker` exists, the
selected directory's tree, the text decoding used by `File.text()` for
`.gitignore`, the exit code of `npm install`, and the outcome of reading and
parsing `/package.json` afterwards (`none` when reading or parsing throws). -/
structure World where
  pickerSupported : Bool
  rootEntries : List (String × FsTree)
  decodeText : List Nat → String
  installExitCode : Nat
  parsedPackageJson : Option PackageJson

/-- Outcome of one run: the sandbox/process operations issued in order, and
either the thrown error's message or success (`return true`). -/
structure RunResult where
  ops : List Op
  result : Except String Bool

/-- `importLocalDirectory(webcontainer)` from `importDirectory.ts`, as a
function from the host-supplied inputs to the issued operations and result:
picker check; `findPackageJson` check (throwing "No package.json found in the
selected directory" before any filesystem operation); `.gitignore` parsing
into extra ignore patterns; `rm('/')`; `importDirectoryContents`; `npm
install` spawn with its exit-code check; `determineStartCommand` (throwing
"Unable to determine..." when it returns null); and the final start spawn. -/
def importLocalDirectory (w : World) : RunResult :=
  if !w.pickerSupported then
    ⟨[], .error "The showDirectoryPicker API is not supported in this environment."⟩
  else
    match findPackageJson w.rootEntries with
    | none => ⟨[], .error "No package.json found in the selected directory"⟩
    | some _ =>
      let ignorePatterns := DEFAULT_IGNORE_PATTERNS ++
        (match findFile w.rootEntries ".gitignore" with
         | some (.file bytes) => parseGitignore (w.decodeText bytes)
         | _ => [])
      let opsThroughInstall :=
        Op.rmRoot :: importDirectoryContents w.rootEntries "/" ignorePatterns
          ++ [Op.spawn "npm" ["install"]]
      if w.installExitCode ≠ 0 then
        ⟨opsThroughInstall,
         .error ("npm install failed with exit code " ++ toString w.installExitCode)⟩
      else
        match determineStartCommand w.parsedPackageJson with
        | none =>
          ⟨opsThroughInstall,
           .error "Unable to determine how to start the project. Check package.json for a start script."⟩
        | some startCmd =>
          ⟨opsThroughInstall ++ [Op.spawn startCmd.command startCmd.args], .ok true⟩

/-- `excludePaths` of `handleImportProject` in `BaseChat.tsx`. -/
def excludePaths : List String :=
  ["node_modules/", ".git/", ".github/", ".next/", ".nuxt/", ".vscode/", "dist/",
   "build/", ".cache/", "coverage/", "out/", "public/assets/", "vendor/"]

/-- `excludeExtensions` of `handleImportProject` in `BaseChat.tsx`. -/
def excludeExtensions : List String :=
  [".DS_Store", ".env", ".env.local", ".env.development", ".env.production",
   ".log", ".tmp", ".temp", ".map", ".lock", ".wasm", ".jar", ".zip", ".tar",
   ".gz", ".rar", ".7z", ".mp4", ".mp3", ".mov", ".avi", ".mkv", ".png", ".jpg",
   ".jpeg", ".gif", ".ico", ".svg", ".pdf", ".ttf", ".otf", ".woff", ".woff2"]

/-- `sub` occurs as a contiguous sublist of `l`. -/
def charsContain (l sub : List Char) : Bool :=
  if sub.isPrefixOf l then true
  else
    match l with
    | [] => false
    | _ :: rest => charsContain rest sub

/-- JS `String.prototype.includes`: `sub` occurs as a substring of `s`. -/
def jsIncludes (s sub : String) : Bool :=
  charsContain s.toList sub.toList

/-- The filter predicate of `handleImportProject` in `BaseChat.tsx` over a
candidate file's `webkitRelativePath` and size: keep the file only if its
path contains no excluded-directory segment, it ends with no excluded
extension, and it is at most 1 MiB (`file.size > 1024 * 1024` is rejected). -/
def shouldImportFile (relativePath : String) (size : Nat) : Bool :=
  let containsExcludedDir := excludePaths.any (fun path => jsIncludes relativePath path)
  let hasExcludedExtension := excludeExtensions.any (fun ext => jsEndsWith relativePath ext)
  let isFileTooLarge := decide (size > 1024 * 1024)
  !containsExcludedDir && !hasExcludedExtension && !isFileTooLarge

/-- Kind of an entry in the workbench file store / materialization plan. -/
inductive EKind where
  | file : EKind
  | directory : EKind
  deriving DecidableEq

/-- One entry of the materialization plan of `handleImportedFiles`. -/
structure PlanEntry where
  path : String
  kind : EKind
  deriving DecidableEq

/-- `a.split('/').length`, the path-depth measure used by the directory sort
of `handleImportedFiles`. -/
def pathDepth (s : String) : Nat :=
  (jsSplit s '/').length

/-- `/home/project/${projectFolderName}` where `projectFolderName` is the
first segment of the first imported file's `webkitRelativePath`. -/
def projectRoot (files : List (List String)) : String :=
  "/home/project/" ++ ((files.headD []).headD "")

/-- The directory paths the first pass of `handleImportedFiles` adds for one
file's path segments: for `pathParts.length > 1`, the prefixes
`/home/project/p0`, `/home/project/p0/p1`, …, up to the file's parent. -/
def dirPrefixes (parts : List String) : List String :=
  if parts.length > 1 then
    (List.range (parts.length - 1)).map
      (fun i => "/home/project/" ++ String.intercalate "/" (parts.take (i + 1)))
  else []

/-- `Set.prototype.add` order semantics: append `x` unless already present. -/
def insertNew (acc : List String) (x : String) : List String :=
  if acc.contains x then acc else acc ++ [x]

/-- The `directories` set of `handleImportedFiles`: the project root plus
every ancestor prefix of every imported file path, in first-insertion order. -/
def collectDirs (files : List (List String)) : List String :=
  files.foldl (fun acc parts => (dirPrefixes parts).foldl insertNew acc)
    (insertNew [] (projectRoot files))

/-- Stable insertion keeping elements of depth ≤ the new one before it:
models one step of the stable `Array.prototype.sort` by ascending
`split('/').length`. -/
def insertByDepth (acc : List String) (x : String) : List String :=
  match acc with
  | [] => [x]
  | y :: ys => if pathDepth y ≤ pathDepth x then y :: insertByDepth ys x else x :: y :: ys

/-- `Array.from(directories).sort((a, b) => a.split('/').length -
b.split('/').length)`: a stable sort by ascending path depth. -/
def sortByDepth (dirs : List String) : List String :=
  dirs.foldl insertByDepth []

/-- The order in which `handleImportedFiles` inserts entries into the store
(its materialization plan): all directory entries, sorted by ascending path
depth, followed by the file entries (path `/home/project/${relativePath}`) in
imported order. -/
def materializationPlan (files : List (List String)) : List PlanEntry :=
  (sortByDepth (collectDirs files)).map (fun d => ⟨d, EKind.directory⟩)
  ++ files.map (fun parts => ⟨"/home/project/" ++ String.intercalate "/" parts, EKind.file⟩)

/-- `dirPath` is an ancestor directory of `filePath`. -/
def isAncestorOf (dirPath filePath : String) : Prop :=
  jsStartsWith filePath (dirPath ++ "/") = true

/-- A value stored in the workbench file store (`{content, path, name, type}`
records; only content and kind matter here). -/
structure StoreVal where
  content : String
  kind : EKind
  deriving DecidableEq

/-- JS object property update: overwrite the existing key or append. -/
def setKey (m : List (String × StoreVal)) (k : String) (v : StoreVal) :
    List (String × StoreVal) :=
  match m with
  | [] => [(k, v)]
  | (k0, v0) :: rest => if k0 == k then (k, v) :: rest else (k0, v0) :: setKey rest k v

/-- JS object property read. -/
def lookupKey (m : List (String × StoreVal)) (p : String) : Option StoreVal :=
  match m with
  | [] => none
  | (k, v) :: rest => if k == p then some v else lookupKey rest p

/-- The regex `^\/home\/project\/[^\/]+$` used by the cleanup step of
`handleImportedFiles`: the path is `/home/project/` followed by one or more
non-slash characters. -/
def isRootLevelProjectPath (p : String) : Bool :=
  (jsStartsWith p "/home/project/") &&
    (let rest := p.drop 14
     !(rest == "") && !(rest.toList.contains '/'))

/-- The cleanup step of `handleImportedFiles` (lines 209–219): keep exactly
the store entries whose path does not match `^\/home\/project\/[^\/]+$`. -/
def cleanupOldFiles (store : List (String × StoreVal)) : List (String × StoreVal) :=
  store.filter (fun kv => !(isRootLevelProjectPath kv.1))

/-- The store update of `handleImportedFiles`: start from the cleaned-up old
store, then insert the new entries (directories first, then files — the order
the two `forEach` loops use) by key. -/
def reconcileStore (store : List (String × StoreVal))
    (newEntries : List (String × StoreVal)) : List (String × StoreVal) :=
  newEntries.foldl (fun acc kv => setKey acc kv.1 kv.2) (cleanupOldFiles store)

/-- The last value bound to key `p` in the entry list, if any (JS record
semantics: a later insert for the same key wins). -/
def lastLookup (entries : List (String × StoreVal)) (p : String) : Option StoreVal :=
  match entries with
  | [] => none
  | (k, v) :: rest =>
    match lastLookup rest p with
    | some w => some w
    | none => if p == k then some v else none

/-- The sandbox filesystem's file contents: path to raw bytes. -/
def Sandbox : Type := List (String × List Nat)

/-- `webcontainer.fs.writeFile(path, bytes)`: overwrite or create. -/
def fsWrite (fs : Sandbox) (p : String) (bytes : List Nat) : Sandbox :=
  match fs with
  | [] => [(p, bytes)]
  | (q, old) :: rest => if q == p then (p, bytes) :: rest else (q, old) :: fsWrite rest p bytes

/-- `webcontainer.fs.readFile(path)` on the byte level. -/
def fsRead (fs : Sandbox) (p : String) : Option (List Nat) :=
  (List.find? (fun kv => kv.1 == p) fs).map (fun kv => kv.2)

/-- Apply a sequence of sandbox operations to the filesystem:
`rm('/', {recursive, force})` clears it, `writeFile` writes bytes, `mkdir`
and `spawn` leave file contents unchanged. -/
def applyOps (ops : List Op) (fs : Sandbox) : Sandbox :=
  ops.foldl
    (fun m op =>
      match op with
      | Op.rmRoot => []
      | Op.mkdir _ => m
      | Op.writeFile p bytes => fsWrite m p bytes
      | Op.spawn _ _ => m)
    fs

/-- The non-ignored source files reachable by `importDirectoryContents` from
`entries` at `currentPath`: `SrcFile entries currentPath pats p bytes` holds
iff the walk reaches a file handle at sandbox path `p` whose raw content is
exactly `bytes`. -/
inductive SrcFile :
    List (String × FsTree) → String → List String → String → List Nat → Prop where
  | here (name : String) (contents : List Nat) (rest : List (String × FsTree))
      (currentPath : String) (pats : List String)
      (hno : shouldIgnore (currentPath ++ name) pats = false) :
      SrcFile ((name, FsTree.file contents) :: rest) currentPath pats
        (currentPath ++ name) contents
  | inDir (name : String) (children : List (String × FsTree))
      (rest : List (String × FsTree)) (currentPath : String) (pats : List String)
      (p : String) (bytes : List Nat)
      (hno : shouldIgnore (currentPath ++ name) pats = false)
      (hsub : SrcFile children (currentPath ++ name ++ "/") pats p bytes) :
      SrcFile ((name, FsTree.dir children) :: rest) currentPath pats p bytes
  | later (name : String) (handle : FsTree) (rest : List (String × FsTree))
      (currentPath : String) (pats : List String) (p : String) (bytes : List Nat)
      (htail : SrcFile rest currentPath pats p bytes) :
      SrcFile ((name, handle) :: rest) currentPath pats p bytes

/-- Modelled from the spec (§4.2 IgnoreRuleParser), for comparison with the
code's `parseGitignore`: walk the lines left to right; trim each; drop empty
lines and comment lines (leading `#`); strip one leading path separator from
each remaining line. -/
def specIgnoreRules (content : String) : List String :=
  (jsSplit content '\n').foldr
    (fun raw acc =>
      let line := jsTrim raw
      if line = "" then acc
      else if jsStartsWith line "#" then acc
      else (if jsStartsWith line "/" then line.drop 1 else line) :: acc)
    []

lemma parse_pipeline_eq (ls : List String) :
    ((ls.map (fun line => jsTrim line)).filter
        (fun line => !(line == "") && !(jsStartsWith line "#"))).map
      (fun pattern => if jsStartsWith pattern "/" then pattern.drop 1 else pattern)
    = ls.foldr
        (fun raw acc =>
          let line := jsTrim raw
          if line = "" then acc
          else if jsStartsWith line "#" then acc
          else (if jsStartsWith line "/" then line.drop 1 else line) :: acc)
        [] := by
  induction ls with
  | nil => rfl
  | cons a ls ih =>
    simp only [List.map_cons, List.filter_cons, List.foldr_cons]
    by_cases h1 : jsTrim a = ""
    · simp [h1, ih]
    · by_cases h2 : jsStartsWith (jsTrim a) "#" = true
      · simp [h1, h2, ih]
      · simp [h1, h2, ih]

/-- C6: for every ignore-file content string, `parseGitignore` returns
exactly the lines that are non-empty and non-comment after trimming, in
order, each with a single leading path separator stripped. -/
theorem parseGitignore_is_spec (content : String) :
    parseGitignore content = specIgnoreRules content := by
  unfold parseGitignore specIgnoreRules
  exact parse_pipeline_eq (jsSplit content '\n')

lemma findFile_isSome (entries : List (String × FsTree)) (filename : String) :
    (findFile entries filename).isSome = true ↔
      ∃ e ∈ entries, e.1 = filename ∧ isFileHandle e.2 = true := by
  induction entries with
  | nil => simp [findFile]
  | cons hd tl ih =>
    obtain ⟨name, handle⟩ := hd
    simp only [findFile]
    by_cases h : (name == filename && isFileHandle handle) = true
    · have h2 := h
      rw [Bool.and_eq_true, beq_iff_eq] at h2
      rw [if_pos h]
      simp only [Option.isSome_some, true_iff]
      exact ⟨(name, handle), List.mem_cons_self _ _, h2.1, h2.2⟩
    · rw [if_neg h, ih]
      constructor
      · rintro ⟨e, he, h1, h2⟩
        exact ⟨e, List.mem_cons_of_mem _ he, h1, h2⟩
      · rintro ⟨e, he, h1, h2⟩
        rcases List.mem_cons.mp he with rfl | he'
        · exact absurd (by rw [Bool.and_eq_true, beq_iff_eq]; exact ⟨h1, h2⟩) h
        · exact ⟨e, he', h1, h2⟩

/-- C10: `findPackageJson` finds a file exactly when a direct child named
`package.json` of kind `file` exists at the top level of the selected
directory; nested `package.json` files are not consulted. -/
theorem findPackageJson_top_level_only (entries : List (String × FsTree)) :
    (findPackageJson entries).isSome = true ↔
      ∃ e ∈ entries, e.1 = "package.json" ∧ isFileHandle e.2 = true := by
  unfold findPackageJson
  exact findFile_isSome entries "package.json"

/-- C5: a candidate file whose relative path contains an excluded-directory
segment, or ends with an excluded extension, or whose size exceeds 1 MiB, is
rejected by the `handleImportProject` filter. -/
theorem shouldImportFile_rejects (relativePath : String) (size : Nat)
    (h : excludePaths.any (fun path => jsIncludes relativePath path) = true ∨
         excludeExtensions.any (fun ext => jsEndsWith relativePath ext) = true ∨
         1024 * 1024 < size) :
    shouldImportFile relativePath size = false := by
  unfold shouldImportFile
  rcases h with h | h | h
  · simp [h]
  · simp [h]
  · have hd : decide (size > 1024 * 1024) = true := decide_eq_true h
    simp [hd]

theorem shouldImportFile_rejects_witness :
    (excludePaths.any (fun path => jsIncludes "node_modules/index.js" path) = true ∨
     excludeExtensions.any (fun ext => jsEndsWith "node_modules/index.js" ext) = true ∨
     1024 * 1024 < 10) ∧
    shouldImportFile "node_modules/index.js" 10 = false :=
  ⟨Or.inl (by decide),
   shouldImportFile_rejects "node_modules/index.js" 10 (Or.inl (by decide))⟩

/-- C1 (corrected): for a successfully parsed `package.json` with a scripts
object, `determineStartCommand` follows the priority `start > dev > serve`
over truthy script values — `develop` is never consulted — and falls back to
`npm start` when none of the three matches; the Workbench variant instead
follows `dev > develop > serve` with default `start`, never consulting
`scripts.start`. -/
theorem startCommand_code_priority :
    (∀ scripts : List (String × String),
      determineStartCommand (some ⟨some scripts⟩) =
        some (match codePriorityScript scripts with
              | some s => ⟨"npm", ["run", s]⟩
              | none => ⟨"npm", ["start"]⟩)) ∧
    (∀ scripts : List (String × String),
      workbenchRunScript (some ⟨some scripts⟩) =
        ((["dev", "develop", "serve"].find? (fun n => jsTruthy (jsGet scripts n))).getD
          "start")) := by
  constructor
  · intro scripts
    cases h1 : jsTruthy (jsGet scripts "start") <;>
      cases h2 : jsTruthy (jsGet scripts "dev") <;>
        cases h3 : jsTruthy (jsGet scripts "serve") <;>
          simp [determineStartCommand, codePriorityScript, List.find?, h1, h2, h3]
  · intro scripts
    cases h1 : jsTruthy (jsGet scripts "dev") <;>
      cases h2 : jsTruthy (jsGet scripts "develop") <;>
        cases h3 : jsTruthy (jsGet scripts "serve") <;>
          simp [workbenchRunScript, List.find?, h1, h2, h3]

/-- C1 counterexample: on `{"scripts": {"develop": "nodemon"}}` the claimed
priority `start > dev > serve > develop` selects `develop`, but
`determineStartCommand` returns the fallback `npm start`; on
`{"scripts": {"start": ..., "dev": ...}}` the claimed priority selects
`start`, but the Workbench chooser selects `dev`. -/
theorem startCommand_priority_counterexample :
    specPriorityScript [("develop", "nodemon")] = "develop" ∧
    determineStartCommand (some ⟨some [("develop", "nodemon")]⟩) =
      some ⟨"npm", ["start"]⟩ ∧
    specPriorityScript [("start", "node index.js"), ("dev", "vite")] = "start" ∧
    workbenchRunScript (some ⟨some [("start", "node index.js"), ("dev", "vite")]⟩) =
      "dev" := by
  decide

/-- The directory-handle path: when the selected directory has no top-level
`package.json`, `importLocalDirectory` throws "No package.json found in the
selected directory" having issued no sandbox operation at all. -/
lemma importLocalDirectory_no_package_json (w : World)
    (hpicker : w.pickerSupported = true)
    (hnone : findPackageJson w.rootEntries = none) :
    importLocalDirectory w =
      ⟨[], Except.error "No package.json found in the selected directory"⟩ := by
  unfold importLocalDirectory
  rw [hpicker, hnone]
  rfl

def WorldNoPkg : World :=
  ⟨true, [("index.js", FsTree.file [1])], fun _ => "", 0, none⟩

/-- `file.name` of a flat-imported file: the last segment of its
`webkitRelativePath`. -/
def flatFileName (parts : List String) : String :=
  parts.getLastD ""

/-- The `hasPackageJson` flag of `handleImportedFiles`: set while iterating
the imported files when one is named `package.json`. -/
def flatHasPackageJson (files : List (List String)) : Bool :=
  files.any (fun parts => flatFileName parts == "package.json")

/-- The `packageJsonPath` variable of `handleImportedFiles`: starts as `''`
and is overwritten with `/home/project/${relativePath}` for each imported
file named `package.json` (the last one wins). -/
def flatPackageJsonPath (files : List (List String)) : String :=
  files.foldl
    (fun acc parts =>
      if flatFileName parts == "package.json" then
        "/home/project/" ++ String.intercalate "/" parts
      else acc)
    ""

/-- The `basicPackageJson` manifest `handleImportedFiles` synthesizes (and
stringifies into the default `package.json` entry) when no `package.json`
was imported; only its `scripts` object matters to the pipeline. -/
def basicPackageJson : PackageJson :=
  ⟨some [("test", "echo \"Error: no test specified\" && exit 1"),
         ("start", "node index.js"),
         ("dev", "node index.js")]⟩

/-- JS `p.substring(0, p.lastIndexOf('/'))`: everything before the last
slash, or `''` when the string has no slash. -/
def dirnameJs (p : String) : String :=
  String.mk (((p.toList.reverse.dropWhile (fun c => !(c == '/'))).drop 1).reverse)

/-- The `package.json` handling of the Workbench flat-file import
(`handleImportedFiles` in `Workbench.client.tsx`, lines 235–306 and
373–431): this path has no failure case for a missing `package.json`. When
no imported file is named `package.json`, the handler synthesizes a default
`package.json` entry (carrying the `basicPackageJson` manifest) and a
default `index.js` under the project root; `packageJsonContent` stays `null`
(it is only assigned while a file named `package.json` is processed), and
the deferred terminal step still issues `cd`, `npm install` and
`npm run <script>`. `parseResult` stands for the `JSON.parse` outcome of an
imported `package.json`'s text (`none` also when parsing threw). Returns the
synthesized default entries (path, structured manifest when the entry is a
manifest) and the terminal commands issued. -/
def flatImportPackageJsonOutcome (files : List (List String))
    (parseResult : Option PackageJson) :
    List (String × Option PackageJson) × List String :=
  let hasPackageJson := flatHasPackageJson files
  let packageJsonPath := flatPackageJsonPath files
  let packageJsonContent := if hasPackageJson then parseResult else none
  let defaultFiles :=
    if hasPackageJson then []
    else
      [(projectRoot files ++ "/package.json", some basicPackageJson),
       (projectRoot files ++ "/index.js", (none : Option PackageJson))]
  let runScript := workbenchRunScript packageJsonContent
  let terminalProjectDir :=
    if !(packageJsonPath == "") then dirnameJs packageJsonPath else projectRoot files
  (defaultFiles, ["cd " ++ terminalProjectDir, "npm install", "npm run " ++ runScript])

lemma foldl_pkgPath_const (files : List (List String)) (acc : String)
    (h : ∀ parts ∈ files, (flatFileName parts == "package.json") = false) :
    files.foldl
        (fun acc parts =>
          if flatFileName parts == "package.json" then
            "/home/project/" ++ String.intercalate "/" parts
          else acc)
        acc = acc := by
  induction files generalizing acc with
  | nil => rfl
  | cons a l ih =>
    simp only [List.foldl_cons]
    rw [if_neg (by simp [h a (List.mem_cons_self _ _)])]
    exact ih acc (fun parts hp => h parts (List.mem_cons_of_mem _ hp))

lemma flatPackageJsonPath_empty (files : List (List String))
    (h : flatHasPackageJson files = false) : flatPackageJsonPath files = "" := by
  unfold flatPackageJsonPath
  refine foldl_pkgPath_const files "" ?_
  intro parts hp
  rw [flatHasPackageJson, List.any_eq_false] at h
  simpa using h parts hp

/-- C3 counterexample: a flat Workbench import whose file set contains no
`package.json` does not fail with the "No package.json found" error — the
handler has no failure case here at all: it synthesizes a default
`package.json` (the `basicPackageJson` manifest) and a default `index.js`
under the project root and still issues `npm install` and `npm run start`,
contradicting the claim that every import without a `package.json` aborts
with that error before any mutation. -/
theorem flat_import_no_pkg_counterexample :
    flatHasPackageJson [["p", "main.js"]] = false ∧
    flatImportPackageJsonOutcome [["p", "main.js"]] none =
      ([("/home/project/p/package.json", some basicPackageJson),
        ("/home/project/p/index.js", none)],
       ["cd /home/project/p", "npm install", "npm run start"]) :=
  ⟨rfl, rfl⟩

/-- C3 (corrected): only the directory-handle path aborts on a missing
`package.json` — `importLocalDirectory` fails with the specific "No
package.json found in the selected directory" error before issuing any
sandbox operation; the Workbench flat-file path instead synthesizes a
default `package.json` (the `basicPackageJson` manifest) and `index.js`
under the project root and proceeds, still issuing `cd`, `npm install` and
`npm run start`. -/
theorem no_package_json_two_paths :
    (∀ (w : World), w.pickerSupported = true →
      findPackageJson w.rootEntries = none →
      importLocalDirectory w =
        ⟨[], Except.error "No package.json found in the selected directory"⟩) ∧
    (∀ (files : List (List String)) (parseResult : Option PackageJson),
      flatHasPackageJson files = false →
      flatImportPackageJsonOutcome files parseResult =
        ([(projectRoot files ++ "/package.json", some basicPackageJson),
          (projectRoot files ++ "/index.js", none)],
         ["cd " ++ projectRoot files, "npm install", "npm run start"])) := by
  constructor
  · exact importLocalDirectory_no_package_json
  · intro files parseResult h
    unfold flatImportPackageJsonOutcome
    rw [flatPackageJsonPath_empty files h, h]
    simp [workbenchRunScript]

theorem no_package_json_two_paths_witness :
    ((WorldNoPkg.pickerSupported = true ∧
      findPackageJson WorldNoPkg.rootEntries = none) ∧
     flatHasPackageJson [["q", "app.js"]] = false) ∧
    (importLocalDirectory WorldNoPkg =
      ⟨[], Except.error "No package.json found in the selected directory"⟩ ∧
     flatImportPackageJsonOutcome [["q", "app.js"]] none =
       ([("/home/project/q" ++ "/package.json", some basicPackageJson),
         ("/home/project/q" ++ "/index.js", none)],
        ["cd " ++ "/home/project/q", "npm install", "npm run start"])) :=
  ⟨⟨⟨rfl, rfl⟩, by decide⟩,
   ⟨no_package_json_two_paths.1 WorldNoPkg rfl rfl,
    no_package_json_two_paths.2 [["q", "app.js"]] none (by decide)⟩⟩

lemma importDirectoryContents_no_spawn (entries : List (String × FsTree))
    (cp : String) (pats : List String) :
    ∀ op ∈ importDirectoryContents entries cp pats, isSpawnOp op = false := by
  induction entries, cp, pats using importDirectoryContents.induct with
  | case1 cp pats =>
    intro op hop
    rw [importDirectoryContents.eq_def] at hop
    simp at hop
  | case2 cp pats name handle rest ih1 ih2 =>
    intro op hop
    rw [importDirectoryContents.eq_def] at hop
    dsimp only at hop
    rcases List.mem_append.mp hop with h | h
    · split at h
      · simp at h
      · cases handle with
        | file contents =>
          simp only [List.mem_singleton] at h
          subst h
          rfl
        | dir children =>
          rcases List.mem_cons.mp h with rfl | h'
          · rfl
          · exact ih1 op h'
    · exact ih2 op h

lemma filter_spawn_importDirectoryContents (entries : List (String × FsTree))
    (cp : String) (pats : List String) :
    (importDirectoryContents entries cp pats).filter isSpawnOp = [] := by
  rw [List.filter_eq_nil_iff]
  intro a ha
  simp [importDirectoryContents_no_spawn entries cp pats a ha]

/-- C4: a non-zero `npm install` exit code aborts the bootstrap: the thrown
message reports the exit code and the only process ever spawned is the
install one — no start command is spawned. -/
theorem install_failure_aborts (w : World)
    (hpicker : w.pickerSupported = true)
    (hpkg : (findPackageJson w.rootEntries).isSome = true)
    (hexit : w.installExitCode ≠ 0) :
    (importLocalDirectory w).result =
      Except.error ("npm install failed with exit code " ++ toString w.installExitCode) ∧
    (importLocalDirectory w).ops.filter isSpawnOp = [Op.spawn "npm" ["install"]] := by
  obtain ⟨pkg, hpkgEq⟩ := Option.isSome_iff_exists.mp hpkg
  unfold importLocalDirectory
  rw [hpicker, hpkgEq]
  simp [hexit, filter_spawn_importDirectoryContents, isSpawnOp]

def WorldInstallFail : World :=
  ⟨true, [("package.json", FsTree.file [10])], fun _ => "", 2,
   some ⟨some [("start", "node index.js")]⟩⟩

theorem install_failure_witness :
    (WorldInstallFail.pickerSupported = true ∧
     (findPackageJson WorldInstallFail.rootEntries).isSome = true ∧
     WorldInstallFail.installExitCode ≠ 0) ∧
    ((importLocalDirectory WorldInstallFail).result =
       Except.error ("npm install failed with exit code " ++
         toString WorldInstallFail.installExitCode) ∧
     (importLocalDirectory WorldInstallFail).ops.filter isSpawnOp =
       [Op.spawn "npm" ["install"]]) :=
  ⟨⟨rfl, rfl, by decide⟩,
   install_failure_aborts WorldInstallFail rfl rfl (by decide)⟩

/-- C2 (corrected): when reading or parsing `/package.json` fails,
`determineStartCommand` returns `null` and `importLocalDirectory` aborts
with "Unable to determine how to start the project. Check package.json for a
start script."; no start process is spawned (only the install spawn is
issued). -/
theorem parse_failure_is_fatal (w : World)
    (hpicker : w.pickerSupported = true)
    (hpkg : (findPackageJson w.rootEntries).isSome = true)
    (hexit : w.installExitCode = 0)
    (hparse : w.parsedPackageJson = none) :
    (importLocalDirectory w).result =
      Except.error
        "Unable to determine how to start the project. Check package.json for a start script." ∧
    (importLocalDirectory w).ops.filter isSpawnOp = [Op.spawn "npm" ["install"]] := by
  obtain ⟨pkg, hpkgEq⟩ := Option.isSome_iff_exists.mp hpkg
  unfold importLocalDirectory
  rw [hpicker, hpkgEq]
  simp [hexit, hparse, determineStartCommand, filter_spawn_importDirectoryContents,
    isSpawnOp]

def WorldBadJson : World :=
  ⟨true, [("package.json", FsTree.file [123])], fun _ => "", 0, none⟩

/-- C2 counterexample: with a present but unparsable `package.json`,
`determineStartCommand` yields `null` (not a `start` fallback), the run ends
in the fatal "Unable to determine..." error, and no start process is spawned
— contradicting the claim that resolution falls back to `start` non-fatally
and still spawns a start process. -/
theorem parse_failure_counterexample :
    determineStartCommand WorldBadJson.parsedPackageJson = none ∧
    (importLocalDirectory WorldBadJson).result =
      Except.error
        "Unable to determine how to start the project. Check package.json for a start script." ∧
    (importLocalDirectory WorldBadJson).ops.filter isSpawnOp =
      [Op.spawn "npm" ["install"]] := by
  refine ⟨rfl, ?_, ?_⟩
  · simp [importLocalDirectory, WorldBadJson, findPackageJson, findFile,
      isFileHandle, determineStartCommand]
  · simp [importLocalDirectory, WorldBadJson, findPackageJson, findFile,
      isFileHandle, determineStartCommand, filter_spawn_importDirectoryContents,
      isSpawnOp]

theorem parse_failure_witness :
    (WorldBadJson.pickerSupported = true ∧
     (findPackageJson WorldBadJson.rootEntries).isSome = true ∧
     WorldBadJson.installExitCode = 0 ∧
     WorldBadJson.parsedPackageJson = none) ∧
    ((importLocalDirectory WorldBadJson).result =
       Except.error
         "Unable to determine how to start the project. Check package.json for a start script." ∧
     (importLocalDirectory WorldBadJson).ops.filter isSpawnOp =
       [Op.spawn "npm" ["install"]]) :=
  ⟨⟨rfl, rfl, rfl, rfl⟩, parse_failure_is_fatal WorldBadJson rfl rfl rfl rfl⟩

lemma srcFile_of_write_mem (entries : List (String × FsTree)) (cp : String)
    (pats : List String) :
    ∀ (p : String) (bytes : List Nat),
      Op.writeFile p bytes ∈ importDirectoryContents entries cp pats →
      SrcFile entries cp pats p bytes := by
  induction entries, cp, pats using importDirectoryContents.induct with
  | case1 cp pats =>
    intro p bytes h
    rw [importDirectoryContents.eq_def] at h
    simp at h
  | case2 cp pats name handle rest ih1 ih2 =>
    intro p bytes h
    rw [importDirectoryContents.eq_def] at h
    dsimp only at h
    rcases List.mem_append.mp h with h | h
    · by_cases hig : shouldIgnore (cp ++ name) pats = true
      · rw [if_pos hig] at h
        simp at h
      · have hig2 : shouldIgnore (cp ++ name) pats = false := by
          simpa using hig
        rw [if_neg hig] at h
        cases handle with
        | file contents =>
          simp only [List.mem_singleton] at h
          injection h with h1 h2
          subst h1
          subst h2
          exact SrcFile.here name bytes rest cp pats hig2
        | dir children =>
          rcases List.mem_cons.mp h with heq | h'
          · exact absurd heq (by simp)
          · exact SrcFile.inDir name children rest cp pats p bytes hig2 (ih1 p bytes h')
    · exact SrcFile.later name handle rest cp pats p bytes (ih2 p bytes h)

lemma write_mem_of_srcFile {entries : List (String × FsTree)} {cp : String}
    {pats : List String} {p : String} {bytes : List Nat}
    (h : SrcFile entries cp pats p bytes) :
    Op.writeFile p bytes ∈ importDirectoryContents entries cp pats := by
  induction h with
  | here name contents rest cp pats hno =>
    rw [importDirectoryContents.eq_def]
    dsimp only
    refine List.mem_append.mpr (Or.inl ?_)
    rw [if_neg (by simp [hno])]
    simp
  | inDir name children rest cp pats p bytes hno hsub ih =>
    rw [importDirectoryContents.eq_def]
    dsimp only
    refine List.mem_append.mpr (Or.inl ?_)
    rw [if_neg (by simp [hno])]
    exact List.mem_cons_of_mem _ ih
  | later name handle rest cp pats p bytes htail ih =>
    rw [importDirectoryContents.eq_def]
    dsimp only
    exact List.mem_append.mpr (Or.inr ih)

/-- C8: every byte sequence the import walk writes into the sandbox is
exactly the raw byte content of the corresponding source file, and
conversely every non-ignored source file gets written with its exact bytes;
in particular, importing a single binary file of arbitrary known bytes and
reading that path back from the resulting sandbox filesystem yields the
identical byte sequence. -/
theorem import_bytes_roundtrip :
    (∀ (entries : List (String × FsTree)) (cp : String) (pats : List String)
       (p : String) (bytes : List Nat),
       Op.writeFile p bytes ∈ importDirectoryContents entries cp pats ↔
         SrcFile entries cp pats p bytes) ∧
    (∀ (bytes : List Nat) (name : String) (pats : List String),
       shouldIgnore ("/" ++ name) pats = false →
       fsRead (applyOps (importDirectoryContents [(name, FsTree.file bytes)] "/" pats) [])
           ("/" ++ name) = some bytes) := by
  constructor
  · intro entries cp pats p bytes
    exact ⟨srcFile_of_write_mem entries cp pats p bytes, write_mem_of_srcFile⟩
  · intro bytes name pats hno
    rw [importDirectoryContents.eq_def]
    dsimp only
    rw [if_neg (by simp [hno])]
    rw [importDirectoryContents.eq_def]
    simp [applyOps, fsWrite, fsRead, List.find?]

theorem import_bytes_roundtrip_witness :
    shouldIgnore ("/" ++ "data.bin") DEFAULT_IGNORE_PATTERNS = false ∧
    fsRead
        (applyOps
          (importDirectoryContents [("data.bin", FsTree.file [0, 255, 7])] "/"
            DEFAULT_IGNORE_PATTERNS) [])
        ("/" ++ "data.bin") = some [0, 255, 7] :=
  ⟨by decide,
   import_bytes_roundtrip.2 [0, 255, 7] "data.bin" DEFAULT_IGNORE_PATTERNS (by decide)⟩

lemma mem_insertByDepth (l : List String) (x z : String)
    (h : z ∈ insertByDepth l x) : z = x ∨ z ∈ l := by
  induction l with
  | nil =>
    simp only [insertByDepth, List.mem_singleton] at h
    exact Or.inl h
  | cons y ys ih =>
    simp only [insertByDepth] at h
    by_cases hc : pathDepth y ≤ pathDepth x
    · rw [if_pos hc] at h
      rcases List.mem_cons.mp h with rfl | h'
      · exact Or.inr (List.mem_cons_self _ _)
      · rcases ih h' with h2 | h2
        · exact Or.inl h2
        · exact Or.inr (List.mem_cons_of_mem _ h2)
    · rw [if_neg hc] at h
      rcases List.mem_cons.mp h with rfl | h'
      · exact Or.inl rfl
      · exact Or.inr h'

lemma pairwise_insertByDepth (l : List String) (x : String)
    (h : l.Pairwise (fun a b => pathDepth a ≤ pathDepth b)) :
    (insertByDepth l x).Pairwise (fun a b => pathDepth a ≤ pathDepth b) := by
  induction l with
  | nil => simp [insertByDepth]
  | cons y ys ih =>
    rw [List.pairwise_cons] at h
    obtain ⟨hy, hys⟩ := h
    simp only [insertByDepth]
    by_cases hc : pathDepth y ≤ pathDepth x
    · rw [if_pos hc, List.pairwise_cons]
      refine ⟨?_, ih hys⟩
      intro z hz
      rcases mem_insertByDepth ys x z hz with rfl | hz'
      · exact hc
      · exact hy z hz'
    · rw [if_neg hc]
      have hxy : pathDepth x ≤ pathDepth y := Nat.le_of_not_le hc
      rw [List.pairwise_cons]
      refine ⟨?_, List.pairwise_cons.mpr ⟨hy, hys⟩⟩
      intro z hz
      rcases List.mem_cons.mp hz with rfl | hz'
      · exact hxy
      · exact Nat.le_trans hxy (hy z hz')

lemma pairwise_foldl_insertByDepth (l acc : List String)
    (h : acc.Pairwise (fun a b => pathDepth a ≤ pathDepth b)) :
    (l.foldl insertByDepth acc).Pairwise (fun a b => pathDepth a ≤ pathDepth b) := by
  induction l generalizing acc with
  | nil => exact h
  | cons a l ih => exact ih _ (pairwise_insertByDepth acc a h)

lemma pairwise_sortByDepth (l : List String) :
    (sortByDepth l).Pairwise (fun a b => pathDepth a ≤ pathDepth b) :=
  pairwise_foldl_insertByDepth l [] (by simp)

/-- C7: in the materialization plan of `handleImportedFiles`, every directory
entry that is an ancestor of a file entry's path occurs strictly before that
file entry (all directories precede all files), and the directory entries
themselves are ordered by ascending path depth. -/
theorem plan_parents_before_children (files : List (List String)) (i j : Nat)
    (ei ej : PlanEntry)
    (hi : (materializationPlan files)[i]? = some ei)
    (hj : (materializationPlan files)[j]? = some ej) :
    ((ei.kind = EKind.file ∧ ej.kind = EKind.directory ∧ isAncestorOf ej.path ei.path) →
      j < i) ∧
    ((i ≤ j ∧ ei.kind = EKind.directory ∧ ej.kind = EKind.directory) →
      pathDepth ei.path ≤ pathDepth ej.path) := by
  unfold materializationPlan at hi hj
  set A := (sortByDepth (collectDirs files)).map
    (fun d => (⟨d, EKind.directory⟩ : PlanEntry)) with hA
  set B := files.map
    (fun parts =>
      (⟨"/home/project/" ++ String.intercalate "/" parts, EKind.file⟩ : PlanEntry)) with hB
  have hka : ∀ e ∈ A, e.kind = EKind.directory := by
    intro e he
    rw [hA] at he
    obtain ⟨d, _, rfl⟩ := List.mem_map.mp he
    rfl
  have hkb : ∀ e ∈ B, e.kind = EKind.file := by
    intro e he
    rw [hB] at he
    obtain ⟨d, _, rfl⟩ := List.mem_map.mp he
    rfl
  constructor
  · rintro ⟨hif, hjd, _⟩
    have hjA : j < A.length := by
      by_contra hge
      rw [Nat.not_lt] at hge
      rw [List.getElem?_append_right hge] at hj
      have hmem := List.getElem?_mem hj
      rw [hkb ej hmem] at hjd
      exact absurd hjd (by simp)
    have hiA : A.length ≤ i := by
      by_contra hlt
      rw [Nat.not_le] at hlt
      rw [List.getElem?_append_left hlt] at hi
      have hmem := List.getElem?_mem hi
      rw [hka ei hmem] at hif
      exact absurd hif (by simp)
    omega
  · rintro ⟨hij, _, hjd⟩
    have hjA : j < A.length := by
      by_contra hge
      rw [Nat.not_lt] at hge
      rw [List.getElem?_append_right hge] at hj
      have hmem := List.getElem?_mem hj
      rw [hkb ej hmem] at hjd
      exact absurd hjd (by simp)
    have hiA : i < A.length := Nat.lt_of_le_of_lt hij hjA
    rw [List.getElem?_append_left hiA, List.getElem?_eq_getElem hiA] at hi
    rw [List.getElem?_append_left hjA, List.getElem?_eq_getElem hjA] at hj
    have hei : ei = A.get ⟨i, hiA⟩ := by
      injection hi.symm
    have hej : ej = A.get ⟨j, hjA⟩ := by
      injection hj.symm
    have hpw : A.Pairwise (fun a b => pathDepth a.path ≤ pathDepth b.path) := by
      rw [hA]
      exact List.Pairwise.map _ (fun a b hab => hab) (pairwise_sortByDepth (collectDirs files))
    rcases Nat.lt_or_ge i j with hlt | hge
    · have := List.pairwise_iff_get.mp hpw ⟨i, hiA⟩ ⟨j, hjA⟩ hlt
      rw [hei, hej]
      exact this
    · have hij2 : i = j := Nat.le_antisymm hij hge
      subst hij2
      rw [hei, hej]

def planExampleFiles : List (List String) := [["p", "a", "f.txt"]]

theorem plan_parents_before_children_witness :
    ((materializationPlan planExampleFiles)[2]? =
        some ⟨"/home/project/p/a/f.txt", EKind.file⟩ ∧
      (materializationPlan planExampleFiles)[0]? =
        some ⟨"/home/project/p", EKind.directory⟩) ∧
    ((((⟨"/home/project/p/a/f.txt", EKind.file⟩ : PlanEntry).kind = EKind.file ∧
        (⟨"/home/project/p", EKind.directory⟩ : PlanEntry).kind = EKind.directory ∧
        isAncestorOf (⟨"/home/project/p", EKind.directory⟩ : PlanEntry).path
          (⟨"/home/project/p/a/f.txt", EKind.file⟩ : PlanEntry).path) →
      0 < 2) ∧
     ((2 ≤ 0 ∧
        (⟨"/home/project/p/a/f.txt", EKind.file⟩ : PlanEntry).kind = EKind.directory ∧
        (⟨"/home/project/p", EKind.directory⟩ : PlanEntry).kind = EKind.directory) →
      pathDepth (⟨"/home/project/p/a/f.txt", EKind.file⟩ : PlanEntry).path ≤
        pathDepth (⟨"/home/project/p", EKind.directory⟩ : PlanEntry).path)) :=
  ⟨⟨by decide, by decide⟩,
   plan_parents_before_children planExampleFiles 2 0 _ _ (by decide) (by decide)⟩

lemma lookupKey_setKey (m : List (String × StoreVal)) (k p : String) (v : StoreVal) :
    lookupKey (setKey m k v) p = if p = k then some v else lookupKey m p := by
  induction m with
  | nil =>
    simp only [setKey, lookupKey]
    by_cases h : p = k
    · subst h
      simp
    · have hb : (k == p) = false := by
        simp [Ne.symm h]
      simp [hb, h]
  | cons hd tl ih =>
    obtain ⟨k0, v0⟩ := hd
    simp only [setKey]
    by_cases h0 : (k0 == k) = true
    · have hk : k0 = k := by simpa using h0
      subst hk
      rw [if_pos h0]
      simp only [lookupKey]
      by_cases hp : p = k0
      · subst hp
        simp
      · have hb : (k0 == p) = false := by
          simp [Ne.symm hp]
        simp [hb, hp]
    · rw [if_neg h0]
      simp only [lookupKey]
      by_cases hp : (k0 == p) = true
      · have hk : k0 = p := by simpa using hp
        have hpk : ¬(p = k) := by
          intro hh
          exact h0 (by rw [hk, hh]; simp)
        simp [hp, hpk]
      · simp [hp, ih]

lemma lookupKey_foldl_setKey (newEntries acc : List (String × StoreVal)) (p : String) :
    lookupKey (newEntries.foldl (fun m kv => setKey m kv.1 kv.2) acc) p =
      (match lastLookup newEntries p with
       | some v => some v
       | none => lookupKey acc p) := by
  induction newEntries generalizing acc with
  | nil => simp [lastLookup]
  | cons kv rest ih =>
    obtain ⟨k, v⟩ := kv
    simp only [List.foldl_cons, lastLookup]
    rw [ih]
    cases hr : lastLookup rest p with
    | some w => simp
    | none =>
      simp only
      rw [lookupKey_setKey]
      by_cases hp : p = k
      · subst hp
        simp
      · have hb : (p == k) = false := by
          simp [hp]
        simp [hb, hp]

lemma cleanup_cons_root (k : String) (v : StoreVal) (tl : List (String × StoreVal))
    (hk : isRootLevelProjectPath k = true) :
    cleanupOldFiles ((k, v) :: tl) = cleanupOldFiles tl := by
  simp [cleanupOldFiles, List.filter_cons, hk]

lemma cleanup_cons_keep (k : String) (v : StoreVal) (tl : List (String × StoreVal))
    (hk : isRootLevelProjectPath k = false) :
    cleanupOldFiles ((k, v) :: tl) = (k, v) :: cleanupOldFiles tl := by
  simp [cleanupOldFiles, List.filter_cons, hk]

lemma lookupKey_cleanup (store : List (String × StoreVal)) (p : String) :
    lookupKey (cleanupOldFiles store) p =
      if isRootLevelProjectPath p = true then none else lookupKey store p := by
  induction store with
  | nil => simp [cleanupOldFiles, lookupKey]
  | cons hd tl ih =>
    obtain ⟨k, v⟩ := hd
    by_cases hk : isRootLevelProjectPath k = true
    · rw [cleanup_cons_root k v tl hk, ih]
      by_cases hp : isRootLevelProjectPath p = true
      · simp [hp]
      · have hkp : (k == p) = false := by
          rw [beq_eq_false_iff_ne]
          intro hh
          rw [hh] at hk
          exact hp hk
        simp [hp, lookupKey, hkp]
    · have hk2 : isRootLevelProjectPath k = false := by simpa using hk
      rw [cleanup_cons_keep k v tl hk2]
      simp only [lookupKey]
      by_cases hkp : (k == p) = true
      · have hkeq : k = p := by simpa using hkp
        have hp2 : isRootLevelProjectPath p = false := by
          rw [← hkeq]
          exact hk2
        simp [hkp, hp2]
      · have hkp2 : (k == p) = false := by simpa using hkp
        rw [hkp2]
        simp only [Bool.false_eq_true, if_false]
        rw [ih]

/-- C9 (corrected): the cleanup of `handleImportedFiles` removes exactly the
store entries whose path is a direct child of `/home/project` (matching
`^\/home\/project\/[^\/]+$`), regardless of whether they are present in the
new import's entry set; entries nested deeper under the root that are absent
from the new import are kept (an additive merge at depth ≥ 2), and the new
entries then overwrite matching keys. -/
theorem reconcile_keeps_deep_stale_entries (store newEntries : List (String × StoreVal))
    (p : String) :
    lookupKey (reconcileStore store newEntries) p =
      (match lastLookup newEntries p with
       | some v => some v
       | none =>
         if isRootLevelProjectPath p = true then none else lookupKey store p) := by
  unfold reconcileStore
  rw [lookupKey_foldl_setKey]
  cases hr : lastLookup newEntries p with
  | some w => simp
  | none =>
    simp only
    exact lookupKey_cleanup store p

def staleStore : List (String × StoreVal) :=
  [("/home/project/p/old.txt", ⟨"old", EKind.file⟩)]

def newImportEntries : List (String × StoreVal) :=
  [("/home/project/p", ⟨"", EKind.directory⟩),
   ("/home/project/p/new.txt", ⟨"new", EKind.file⟩)]

/-- C9 counterexample: `/home/project/p/old.txt` comes from a prior import
under the root prefix and is absent from the second import's entry set, yet
after the second import's reconciliation it is still in the store — the
claimed stale-file cleanup does not happen for entries deeper than one level
below `/home/project`. -/
theorem reconcile_stale_counterexample :
    lastLookup newImportEntries "/home/project/p/old.txt" = none ∧
    lookupKey (reconcileStore staleStore newImportEntries) "/home/project/p/old.txt" =
      some ⟨"old", EKind.file⟩ := by
  exact ⟨rfl, rfl⟩

end BoltImport
